import Mathlib

/-!
Verification of the go-voicevox repository core against its specification.

The development shallowly embeds the three core subsystems of the repository:

* the WAV audio assembler (`extractAudioData`, `buildCombinedWav`,
  `combineWavData`) from the dynamic-chunk-scanning version of the audio
  code;
* the script segmenter (`textParse` and its helpers) from the
  `parser` package;
* the synthesis orchestrator (`getStyleID`, `prepareSegments`,
  `runSynthesisBatch`, `finalizeOutput`, `execute`) from `engine.go`.

Go byte slices are modelled as `List Nat` (each entry one byte), Go strings
as `List Char` (one entry per rune, matching the rune-based character
counting of the segmenter), and Go maps as association lists or lookup
functions.  Stateful loops become explicit state-passing recursion; loops
whose Go termination argument is "the offset strictly grows" are given an
explicit fuel argument that provably dominates the iteration count, so all
definitions stay executable.  I/O effects (file writing, logging) are
reflected as data in the result types.
-/

namespace Voicevox

/-! ## Little-endian 32-bit fields (`encoding/binary`) -/

/-- Model of `binary.LittleEndian.PutUint32`: the four bytes written for a
value (the Go conversion `uint32(n)` is reflected by the `% 256` digits,
which only ever see `n % 2^32`). -/
def putUint32 (n : Nat) : List Nat :=
  [n % 256, n / 256 % 256, n / 65536 % 256, n / 16777216 % 256]

/-- Model of `binary.LittleEndian.Uint32` reading four bytes at `off`. -/
def readUint32 (l : List Nat) (off : Nat) : Nat :=
  match l.drop off with
  | b0 :: b1 :: b2 :: b3 :: _ => b0 + 256 * b1 + 65536 * b2 + 16777216 * b3
  | _ => 0

theorem putUint32_length (n : Nat) : (putUint32 n).length = 4 := rfl

theorem readUint32_cons4 (b0 b1 b2 b3 : Nat) (rest : List Nat) :
    readUint32 (b0 :: b1 :: b2 :: b3 :: rest) 0 =
      b0 + 256 * b1 + 65536 * b2 + 16777216 * b3 := rfl

theorem readUint32_putUint32 (n : Nat) (rest : List Nat) :
    readUint32 (putUint32 n ++ rest) 0 = n % 4294967296 := by
  show n % 256 + 256 * (n / 256 % 256) + 65536 * (n / 65536 % 256) +
      16777216 * (n / 16777216 % 256) = n % 4294967296
  omega

/-! ## WAV constants (`const.go` of the audio code) -/

def WavRiffHeaderSize : Nat := 12
def DataChunkHeaderSize : Nat := 8
def DataChunkIDSize : Nat := 4
def RiffChunkIDSize : Nat := 4
def WaveIDSize : Nat := 4
def RiffChunkSizeOffset : Nat := 4

/-- The bytes of the ASCII chunk identifier `"data"`. -/
def dataBytes : List Nat := [100, 97, 116, 97]

/-- The bytes of the ASCII chunk identifier `"fmt "`. -/
def fmtBytes : List Nat := [102, 109, 116, 32]

/-! ## WAV errors (`error.go`) -/

/-- Error cases of the audio assembler, mirroring `ErrInvalidWAVHeader`
(with the payload index the Go code stores in it) and `ErrNoAudioData`. -/
inductive WavError where
  | tooShort (index : Nat) (haveBytes : Nat)
  | dataExceeds (index : Nat)
  | missingChunks (index : Nat) (fmtMissing : Bool) (dataMissing : Bool)
  | sizeMismatch (index : Nat)
  | noAudioData
deriving DecidableEq, Repr

/-! ## Chunk scanning (`extractAudioData` loop) -/

/-- Result of the chunk-scanning loop of `extractAudioData`: the loop
either ran off the end of the file without finding a `data` chunk, found
one whose declared length overruns the file (the in-loop error return), or
found a well-sized `data` chunk at `dataStart` with declared size
`chunkSize`.  The Boolean carries the `fmtChunkFound` flag. -/
inductive ChunkScan where
  | noData (fmtFound : Bool)
  | dataTooBig (fmtFound : Bool)
  | found (fmtFound : Bool) (dataStart : Nat) (chunkSize : Nat)
deriving DecidableEq, Repr

/-- The chunk-scanning loop of `extractAudioData`.  Each Go iteration
advances `offset` by at least `DataChunkHeaderSize = 8`, so the loop runs
at most `wav.length / 8 + 1` times; the fuel passed by `extractAudioData`
(`wav.length + 1`) therefore always suffices and the fuel-exhaustion
branch is unreachable. -/
def scanChunks (fuel : Nat) (wav : List Nat) (offset : Nat) (fmtFound : Bool) : ChunkScan :=
  match fuel with
  | 0 => .noData fmtFound
  | fuel + 1 =>
    if offset < wav.length then
      if offset + DataChunkHeaderSize > wav.length then .noData fmtFound
      else if (wav.drop offset).take DataChunkIDSize = dataBytes then
        if offset + DataChunkHeaderSize + readUint32 wav (offset + DataChunkIDSize) >
            wav.length then
          .dataTooBig (fmtFound || decide ((wav.drop offset).take DataChunkIDSize = fmtBytes))
        else
          .found (fmtFound || decide ((wav.drop offset).take DataChunkIDSize = fmtBytes))
            offset (readUint32 wav (offset + DataChunkIDSize))
      else
        scanChunks fuel wav
          (offset + DataChunkHeaderSize + readUint32 wav (offset + DataChunkIDSize) +
            (if readUint32 wav (offset + DataChunkIDSize) % 2 = 1 then 1 else 0))
          (fmtFound || decide ((wav.drop offset).take DataChunkIDSize = fmtBytes))
    else .noData fmtFound

/-- `extractAudioData` (dynamic chunk-search version of the audio code):
checks the 12-byte RIFF header is present, scans forward through chunk
headers skipping non-`data` chunks (with odd-length padding), remembers
whether a `fmt ` chunk was seen, and on success returns the format header
(all bytes before the `data` chunk) and the extracted sample bytes. -/
def extractAudioData (wav : List Nat) (index : Nat) :
    Except WavError (List Nat × List Nat) :=
  if wav.length < WavRiffHeaderSize then .error (.tooShort index wav.length)
  else
    match scanChunks (wav.length + 1) wav WavRiffHeaderSize false with
    | .dataTooBig _ => .error (.dataExceeds index)
    | .noData fmtFound => .error (.missingChunks index (!fmtFound) true)
    | .found fmtFound dataStart chunkSize =>
      if fmtFound then
        if ((wav.drop (dataStart + DataChunkHeaderSize)).take chunkSize).length =
            readUint32 wav (dataStart + DataChunkIDSize) then
          .ok (wav.take dataStart, (wav.drop (dataStart + DataChunkHeaderSize)).take chunkSize)
        else .error (.sizeMismatch index)
      else .error (.missingChunks index true false)

/-! ## Building the combined WAV -/

/-- Model of Go `copy(dst[off:], src)`: overwrite at most
`dst.length - off` entries of `dst` starting at `off` with the leading
entries of `src`; the length of `dst` is preserved. -/
def overwrite (dst : List Nat) (off : Nat) (src : List Nat) : List Nat :=
  dst.take off ++ src.take (dst.length - off) ++ dst.drop (off + src.length)

/-- `buildCombinedWav`: allocate `len(formatHeader) + 8 + totalAudioSize`
bytes, copy the template format region, write the `data` chunk header
(identifier plus total size), patch the outer RIFF size field at offset 4
to `totalAudioSize + finalWavHeaderSize - 8`, and copy the sample bytes. -/
def buildCombinedWav (formatHeader combinedAudioData : List Nat) (totalAudioSize : Nat) :
    List Nat :=
  let dataChunkStart := formatHeader.length
  let dataChunkSizeOffset := dataChunkStart + DataChunkIDSize
  let finalWavHeaderSize := dataChunkStart + DataChunkHeaderSize
  let fileSize := totalAudioSize + finalWavHeaderSize - (RiffChunkIDSize + WaveIDSize)
  let w0 := List.replicate (finalWavHeaderSize + totalAudioSize) 0
  let w1 := overwrite w0 0 formatHeader
  let w2 := overwrite w1 dataChunkStart dataBytes
  let w3 := overwrite w2 RiffChunkSizeOffset (putUint32 fileSize)
  let w4 := overwrite w3 dataChunkSizeOffset (putUint32 totalAudioSize)
  overwrite w4 finalWavHeaderSize combinedAudioData

/-- The loop of `combineWavData` over the second and later payloads:
extract each payload's sample bytes (the Go loop passes `i + 1` as the
diagnostic index, starting at 2 for the second payload). -/
def collectRest (ws : List (List Nat)) (i : Nat) : Except WavError (List (List Nat)) :=
  match ws with
  | [] => .ok []
  | w :: t =>
    match extractAudioData w i with
    | .error e => .error e
    | .ok pr => (collectRest t (i + 1)).map (pr.2 :: ·)

/-- `combineWavData`: fail on an empty list, extract format header and
samples from the first payload, extract and concatenate the samples of
every later payload in order, and build the combined file.  The Go
`fmt.Errorf("...: %w", err)` wrappers only decorate the message, so the
inner error value is propagated unchanged here. -/
def combineWavData (wavDataList : List (List Nat)) : Except WavError (List Nat) :=
  match wavDataList with
  | [] => .error .noAudioData
  | first :: rest =>
    match extractAudioData first 0 with
    | .error e => .error e
    | .ok pr =>
      match collectRest rest 2 with
      | .error e => .error e
      | .ok tails =>
        let combined := pr.2 ++ tails.flatten
        .ok (buildCombinedWav pr.1 combined combined.length)

/-! ## Layout lemmas for the assembler -/

theorem readUint32_shift (l : List Nat) (off : Nat) :
    readUint32 l off = readUint32 (l.drop off) 0 := by
  unfold readUint32
  rw [List.drop_zero]

theorem readUint32_append (a l : List Nat) (off : Nat) (h : a.length = off) :
    readUint32 (a ++ l) off = readUint32 l 0 := by
  rw [readUint32_shift, List.drop_left' h]

theorem overwrite_split (a b c src : List Nat) (off : Nat)
    (hoff : off = a.length) (hlen : src.length = b.length) :
    overwrite (a ++ b ++ c) off src = a ++ src ++ c := by
  subst hoff
  unfold overwrite
  rw [List.append_assoc a b c, List.take_left, List.length_append, List.length_append]
  have h1 : a.length + ((b.length : Nat) + c.length) - a.length = b.length + c.length := by
    omega
  rw [h1, List.take_of_length_le (by omega : src.length ≤ b.length + c.length), hlen,
    ← List.length_append a b, ← List.append_assoc a b c, List.drop_left,
    List.append_assoc]

theorem scanChunks_found {fuel : Nat} {wav : List Nat} {offset : Nat} {fmt : Bool}
    {f : Bool} {ds cs : Nat}
    (h : scanChunks fuel wav offset fmt = .found f ds cs) :
    offset ≤ ds ∧ ds + DataChunkHeaderSize + cs ≤ wav.length := by
  induction fuel generalizing offset fmt with
  | zero => simp [scanChunks] at h
  | succ fuel ih =>
    simp only [scanChunks] at h
    split_ifs at h with h1 h2 h3 h4 h5
    all_goals try simp at h
    all_goals try (obtain ⟨-, hds, hcs⟩ := h; omega)
    all_goals (have hrec := ih h; omega)

theorem extractAudioData_ok {wav : List Nat} {idx : Nat} {fh audio : List Nat}
    (h : extractAudioData wav idx = .ok (fh, audio)) :
    WavRiffHeaderSize ≤ fh.length := by
  have h1 : ¬ wav.length < WavRiffHeaderSize := by
    intro hlt
    unfold extractAudioData at h
    rw [if_pos hlt] at h
    simp at h
  unfold extractAudioData at h
  rw [if_neg h1] at h
  split at h
  · simp at h
  · simp at h
  · next f ds cs hscan =>
    have hb := scanChunks_found hscan
    by_cases h2 : f = true
    · rw [if_pos h2] at h
      by_cases h3 : ((wav.drop (ds + DataChunkHeaderSize)).take cs).length =
          readUint32 wav (ds + DataChunkIDSize)
      · rw [if_pos h3] at h
        rw [Except.ok.injEq, Prod.mk.injEq] at h
        obtain ⟨hfh, -⟩ := h
        subst hfh
        rw [List.length_take]
        simp only [WavRiffHeaderSize, DataChunkHeaderSize] at *
        omega
      · rw [if_neg h3] at h
        simp at h
    · rw [if_neg h2] at h
      simp at h

/-- Closed form of the combined file: template format region with its RIFF
size field patched, then the `data` chunk header, then the sample bytes. -/
theorem buildCombinedWav_closed (fh audio : List Nat) (total : Nat)
    (hfh : 8 ≤ fh.length) (haudio : audio.length = total) :
    buildCombinedWav fh audio total =
      fh.take 4 ++ putUint32 (total + fh.length) ++ fh.drop 8 ++
        dataBytes ++ putUint32 total ++ audio := by
  have hsplit8 : fh = fh.take 4 ++ (fh.drop 4).take 4 ++ fh.drop 8 := by
    rw [List.append_assoc, ← List.drop_drop 4 4 fh, List.take_append_drop,
      List.take_append_drop]
  have hlen4 : (fh.take 4).length = 4 := by
    rw [List.length_take]
    omega
  have hlenb : ((fh.drop 4).take 4).length = 4 := by
    rw [List.length_take, List.length_drop]
    omega
  have hfs : total + (fh.length + DataChunkHeaderSize) -
      (RiffChunkIDSize + WaveIDSize) = total + fh.length := by
    simp only [DataChunkHeaderSize, RiffChunkIDSize, WaveIDSize]
    omega
  simp only [buildCombinedWav, hfs]
  have h1 : overwrite (List.replicate (fh.length + DataChunkHeaderSize + total) 0) 0 fh =
      fh ++ List.replicate (DataChunkHeaderSize + total) 0 := by
    have hrep : List.replicate (fh.length + DataChunkHeaderSize + total) (0 : Nat) =
        [] ++ List.replicate fh.length 0 ++ List.replicate (DataChunkHeaderSize + total) 0 := by
      rw [List.nil_append, ← List.replicate_add, Nat.add_assoc]
    rw [hrep, overwrite_split _ _ _ _ _ (show (0 : Nat) = ([] : List Nat).length from rfl)
      (by simp), List.nil_append]
  have h2 : overwrite (fh ++ List.replicate (DataChunkHeaderSize + total) 0)
      fh.length dataBytes =
      fh ++ dataBytes ++ List.replicate (DataChunkIDSize + total) 0 := by
    have hrep : fh ++ List.replicate (DataChunkHeaderSize + total) (0 : Nat) =
        fh ++ List.replicate 4 0 ++ List.replicate (DataChunkIDSize + total) 0 := by
      have hn : DataChunkHeaderSize + total = 4 + (DataChunkIDSize + total) := by
        simp only [DataChunkHeaderSize, DataChunkIDSize]
        omega
      rw [hn, List.replicate_add, ← List.append_assoc]
    rw [hrep, overwrite_split _ _ _ _ _ rfl (by simp [dataBytes])]
  have h3 : overwrite (fh ++ dataBytes ++ List.replicate (DataChunkIDSize + total) 0)
      RiffChunkSizeOffset (putUint32 (total + fh.length)) =
      fh.take 4 ++ putUint32 (total + fh.length) ++
        (fh.drop 8 ++ (dataBytes ++ List.replicate (DataChunkIDSize + total) 0)) := by
    have hshape : fh ++ dataBytes ++ List.replicate (DataChunkIDSize + total) (0 : Nat) =
        fh.take 4 ++ (fh.drop 4).take 4 ++
          (fh.drop 8 ++ (dataBytes ++ List.replicate (DataChunkIDSize + total) 0)) := by
      conv_lhs => rw [hsplit8]
      simp [List.append_assoc]
    rw [hshape, overwrite_split _ _ _ _ _ (by rw [hlen4]; rfl) (by rw [hlenb]; rfl)]
  have h4 : overwrite
      (fh.take 4 ++ putUint32 (total + fh.length) ++
        (fh.drop 8 ++ (dataBytes ++ List.replicate (DataChunkIDSize + total) 0)))
      (fh.length + DataChunkIDSize) (putUint32 total) =
      (fh.take 4 ++ putUint32 (total + fh.length) ++ fh.drop 8 ++ dataBytes) ++
        putUint32 total ++ List.replicate total 0 := by
    have hshape : fh.take 4 ++ putUint32 (total + fh.length) ++
        (fh.drop 8 ++ (dataBytes ++ List.replicate (DataChunkIDSize + total) (0 : Nat))) =
        (fh.take 4 ++ putUint32 (total + fh.length) ++ fh.drop 8 ++ dataBytes) ++
          List.replicate 4 0 ++ List.replicate total 0 := by
      have : List.replicate (DataChunkIDSize + total) (0 : Nat) =
          List.replicate 4 0 ++ List.replicate total 0 := by
        rw [← List.replicate_add]
        rfl
      rw [this]
      simp [List.append_assoc]
    have hlena : (fh.take 4 ++ putUint32 (total + fh.length) ++ fh.drop 8 ++
        dataBytes).length = fh.length + DataChunkIDSize := by
      simp only [List.length_append, hlen4, putUint32_length, List.length_drop,
        dataBytes, DataChunkIDSize, List.length_cons, List.length_nil]
      omega
    rw [hshape, overwrite_split _ _ _ _ _ hlena.symm (by simp [putUint32])]
  have h5 : overwrite
      ((fh.take 4 ++ putUint32 (total + fh.length) ++ fh.drop 8 ++ dataBytes) ++
        putUint32 total ++ List.replicate total 0)
      (fh.length + DataChunkHeaderSize) audio =
      (fh.take 4 ++ putUint32 (total + fh.length) ++ fh.drop 8 ++ dataBytes) ++
        putUint32 total ++ audio := by
    have hshape : (fh.take 4 ++ putUint32 (total + fh.length) ++ fh.drop 8 ++ dataBytes) ++
        putUint32 total ++ List.replicate total (0 : Nat) =
        ((fh.take 4 ++ putUint32 (total + fh.length) ++ fh.drop 8 ++ dataBytes) ++
          putUint32 total) ++ List.replicate total 0 ++ [] := by
      simp [List.append_assoc]
    have hlena : ((fh.take 4 ++ putUint32 (total + fh.length) ++ fh.drop 8 ++ dataBytes) ++
        putUint32 total).length = fh.length + DataChunkHeaderSize := by
      simp only [List.length_append, hlen4, putUint32_length, List.length_drop,
        dataBytes, DataChunkHeaderSize, List.length_cons, List.length_nil]
      omega
    rw [hshape, overwrite_split _ _ _ _ _ hlena.symm (by simp [haudio]),
      List.append_nil]
  rw [h1, h2, h3, h4, h5]

/-- The three observable fields of the combined file: the patched outer
RIFF size, the declared sample-data size, and the sample-data region. -/
theorem buildCombinedWav_fields (fh audio : List Nat) (total : Nat)
    (hfh : 8 ≤ fh.length) (haudio : audio.length = total) :
    readUint32 (buildCombinedWav fh audio total) RiffChunkSizeOffset =
        (total + fh.length) % 4294967296 ∧
      readUint32 (buildCombinedWav fh audio total) (fh.length + DataChunkIDSize) =
        total % 4294967296 ∧
      (buildCombinedWav fh audio total).drop (fh.length + DataChunkHeaderSize) = audio := by
  rw [buildCombinedWav_closed fh audio total hfh haudio]
  have hlen4 : (fh.take 4).length = 4 := by
    rw [List.length_take]
    omega
  have hlenB : (fh.take 4 ++ putUint32 (total + fh.length) ++ fh.drop 8 ++
      dataBytes).length = fh.length + DataChunkIDSize := by
    simp only [List.length_append, hlen4, putUint32_length, List.length_drop,
      dataBytes, DataChunkIDSize, List.length_cons, List.length_nil]
    omega
  refine ⟨?_, ?_, ?_⟩
  · have hshape : fh.take 4 ++ putUint32 (total + fh.length) ++ fh.drop 8 ++
        dataBytes ++ putUint32 total ++ audio =
        fh.take 4 ++ (putUint32 (total + fh.length) ++
          (fh.drop 8 ++ dataBytes ++ putUint32 total ++ audio)) := by
      simp [List.append_assoc]
    rw [hshape, readUint32_append _ _ _ (by rw [hlen4]; rfl), readUint32_putUint32]
  · rw [List.append_assoc (fh.take 4 ++ putUint32 (total + fh.length) ++ fh.drop 8 ++
      dataBytes) (putUint32 total) audio,
      readUint32_append _ _ _ hlenB, readUint32_putUint32]
  · rw [List.drop_left' (show (fh.take 4 ++ putUint32 (total + fh.length) ++ fh.drop 8 ++
      dataBytes ++ putUint32 total).length = fh.length + DataChunkHeaderSize by
        simp only [List.length_append, hlen4, putUint32_length, List.length_drop,
          dataBytes, DataChunkHeaderSize, List.length_cons, List.length_nil]
        omega)]

/-- On the success path, `combineWavData` builds the combined file from the
first payload's format header and the concatenation of all extracted
sample runs. -/
theorem combineWavData_ok_eq {first : List Nat} {rest : List (List Nat)}
    {fh a0 : List Nat} {tails : List (List Nat)}
    (hfirst : extractAudioData first 0 = .ok (fh, a0))
    (hrest : collectRest rest 2 = .ok tails) :
    combineWavData (first :: rest) =
      .ok (buildCombinedWav fh (a0 ++ tails.flatten) (a0 ++ tails.flatten).length) := by
  simp only [combineWavData, hfirst, hrest]

/-! ## Claim C3 and C8 -/

/-- A minimal well-formed 46-byte WAV payload: 12-byte RIFF header, 24-byte
`fmt ` chunk, 8-byte `data` chunk header declaring 2 sample bytes, and the
2 sample bytes `[10, 20]`.  Its format region is its first 36 bytes. -/
def c3Payload : List Nat :=
  [82, 73, 70, 70, 38, 0, 0, 0, 87, 65, 86, 69,
   102, 109, 116, 32, 16, 0, 0, 0, 1, 0, 1, 0, 64, 31, 0, 0, 128, 62, 0, 0, 2, 0, 16, 0,
   100, 97, 116, 97, 2, 0, 0, 0, 10, 20]

/-- The combined file `combineWavData` produces for `[c3Payload]`. -/
def c3Out : List Nat := buildCombinedWav (c3Payload.take 36) [10, 20] 2

/-- C3 (counterexample): for the single-payload list `[c3Payload]` the
combination succeeds, the output's format region is 36 bytes long and its
sample data 2 bytes, yet the declared outer RIFF size field is 38 =
36 + 2, not `format-region length + total sample bytes - 8` = 30 as the
claim states. -/
theorem c3_counterexample :
    extractAudioData c3Payload 0 = .ok (c3Payload.take 36, [10, 20]) ∧
      combineWavData [c3Payload] = .ok c3Out ∧
      (c3Out.drop 36).take 4 = dataBytes ∧
      c3Out.drop 44 = [10, 20] ∧
      readUint32 c3Out RiffChunkSizeOffset = 38 ∧
      ¬ readUint32 c3Out RiffChunkSizeOffset = 36 + 2 - 8 :=
  ⟨rfl, rfl, rfl, rfl, rfl, by decide⟩

/-- C3 (amended): for every non-empty payload list whose payloads all parse
successfully, the combined output's declared outer RIFF size field equals
format-region length + 8 + total sample bytes - 8, i.e. format-region
length plus total sample bytes (without the further subtraction of 8 that
the original claim states), whenever that value fits the 32-bit field. -/
theorem c3_riff_size_field (first : List Nat) (rest : List (List Nat))
    (fh a0 : List Nat) (tails : List (List Nat)) (out : List Nat)
    (hfirst : extractAudioData first 0 = .ok (fh, a0))
    (hrest : collectRest rest 2 = .ok tails)
    (hout : combineWavData (first :: rest) = .ok out)
    (hfit : fh.length + (a0 ++ tails.flatten).length < 4294967296) :
    readUint32 out RiffChunkSizeOffset =
      fh.length + ((a0 ++ tails.flatten).length + 8) - 8 := by
  have hfh : 8 ≤ fh.length := le_trans (by decide) (extractAudioData_ok hfirst)
  rw [combineWavData_ok_eq hfirst hrest] at hout
  have hout' : out = buildCombinedWav fh (a0 ++ tails.flatten) (a0 ++ tails.flatten).length := by
    exact (Except.ok.injEq _ _).mp hout.symm
  subst hout'
  have hf := (buildCombinedWav_fields fh (a0 ++ tails.flatten)
    (a0 ++ tails.flatten).length hfh rfl).1
  rw [hf, Nat.mod_eq_of_lt (by omega)]
  omega

/-- Witness for `c3_riff_size_field` at the concrete payload `c3Payload`. -/
theorem c3_riff_size_field_witness :
    readUint32 c3Out RiffChunkSizeOffset =
      (c3Payload.take 36).length + (([10, 20] ++ List.flatten ([] : List (List Nat))).length + 8) - 8 :=
  c3_riff_size_field c3Payload [] (c3Payload.take 36) [10, 20] [] c3Out rfl rfl rfl
    (by decide)

/-- C8: for a two-element payload list whose payloads both parse
successfully, the combined output's declared sample-data chunk size (read
at offset format-region length + 4) is the sum of the two sample lengths,
and its sample region (from offset format-region length + 8) is exactly
the first payload's samples followed by the second's. -/
theorem c8_two_payload_combine (a b : List Nat) (fha sa fhb sb out : List Nat)
    (ha : extractAudioData a 0 = .ok (fha, sa))
    (hb : extractAudioData b 2 = .ok (fhb, sb))
    (hout : combineWavData [a, b] = .ok out)
    (hfit : sa.length + sb.length < 4294967296) :
    readUint32 out (fha.length + DataChunkIDSize) = sa.length + sb.length ∧
      out.drop (fha.length + DataChunkHeaderSize) = sa ++ sb := by
  have hfh : 8 ≤ fha.length := le_trans (by decide) (extractAudioData_ok ha)
  have hrest : collectRest [b] 2 = .ok [sb] := by
    simp only [collectRest, hb, Except.map]
  rw [combineWavData_ok_eq ha hrest] at hout
  have hflat : sa ++ List.flatten [sb] = sa ++ sb := by simp
  rw [hflat] at hout
  have hout' : out = buildCombinedWav fha (sa ++ sb) (sa ++ sb).length := by
    exact (Except.ok.injEq _ _).mp hout.symm
  subst hout'
  have hf := buildCombinedWav_fields fha (sa ++ sb) (sa ++ sb).length hfh rfl
  refine ⟨?_, hf.2.2⟩
  rw [hf.2.1, List.length_append, Nat.mod_eq_of_lt (by omega)]

/-- Witness for `c8_two_payload_combine` with two concrete payloads. -/
theorem c8_two_payload_combine_witness :
    readUint32 (buildCombinedWav (c3Payload.take 36) ([10, 20] ++ [10, 20])
        ([10, 20] ++ [10, 20] : List Nat).length) ((c3Payload.take 36).length + DataChunkIDSize) =
      ([10, 20] : List Nat).length + ([10, 20] : List Nat).length ∧
      (buildCombinedWav (c3Payload.take 36) ([10, 20] ++ [10, 20])
        ([10, 20] ++ [10, 20] : List Nat).length).drop
          ((c3Payload.take 36).length + DataChunkHeaderSize) = [10, 20] ++ [10, 20] :=
  c8_two_payload_combine c3Payload c3Payload (c3Payload.take 36) [10, 20]
    (c3Payload.take 36) [10, 20] _ rfl rfl rfl (by decide)

/-! ## The script segmenter (`parser` package)

Strings are modelled rune-by-rune as `List Char`, so list length is
exactly Go's `utf8.RuneCountInString`.  The two regular expressions of the
package are modelled by explicit matchers; the lines fed to them never
contain a newline (they come from splitting on newlines), so the
newline-exclusion of the regexp `.` is immaterial. -/

/-- `MaxSegmentCharLength` of the `parser` package. -/
def maxSegmentCharLength : Nat := 200

/-- Go `unicode.IsSpace`, used by `strings.TrimSpace`. -/
def isUnicodeSpace (c : Char) : Bool :=
  c.toNat = 9 || c.toNat = 10 || c.toNat = 11 || c.toNat = 12 || c.toNat = 13 ||
  c.toNat = 32 || c.toNat = 133 || c.toNat = 160 || c.toNat = 5760 ||
  (8192 ≤ c.toNat && c.toNat ≤ 8202) || c.toNat = 8232 || c.toNat = 8233 ||
  c.toNat = 8239 || c.toNat = 8287 || c.toNat = 12288

/-- The ASCII class matched by the regexp escape for white space in Go's
regexp package (tab, newline, form feed, carriage return, space). -/
def isRegexSpace (c : Char) : Bool :=
  c = ' ' || c = '\t' || c = '\n' || c = '\x0c' || c = '\r'

/-- `strings.TrimSpace`. -/
def trimSpace (l : List Char) : List Char :=
  ((l.dropWhile isUnicodeSpace).reverse.dropWhile isUnicodeSpace).reverse

/-- `strings.Split(s, "\n")`. -/
def splitLines : List Char → List (List Char)
  | [] => [[]]
  | c :: cs =>
    if c = '\n' then [] :: splitLines cs
    else
      match splitLines cs with
      | [] => [[c]]
      | l :: ls => (c :: l) :: ls

/-- The candidate closing positions of a lazy bracket group anchored at the
head of `l`: the group is an opening bracket, a non-empty body, and a
closing bracket, so it can close at any index `j ≥ 2` holding a closing
bracket.  Go's lazy quantifier tries these shortest-first and extends on
backtracking, which is exactly this list's order. -/
def tagEnds (l : List Char) : List Nat :=
  (List.range l.length).filter (fun j => 2 ≤ j && l.getD j ' ' = ']')

/-- Matcher for the anchored regexp of `reBaseSpeakerTag` (an opening
bracket, a lazy non-empty body, a closing bracket): the shortest prefix of
the form bracket-body-bracket. -/
def matchBaseTag (l : List Char) : Option (List Char) :=
  if l.getD 0 ' ' = '[' then
    match tagEnds l with
    | [] => none
    | j :: _ => some (l.take (j + 1))
  else none

/-- After the first tag group: skip the (forced) run of regexp white
space, match the second bracket group lazily, then skip white space again;
the remainder is the text captured by the trailing group. -/
def matchSecondTag (r : List Char) : Option (List Char × List Char) :=
  if (r.dropWhile isRegexSpace).getD 0 ' ' = '[' then
    match tagEnds (r.dropWhile isRegexSpace) with
    | [] => none
    | k :: _ =>
      some ((r.dropWhile isRegexSpace).take (k + 1),
        ((r.dropWhile isRegexSpace).drop (k + 1)).dropWhile isRegexSpace)
  else none

/-- Backtracking over the first group's candidate closing positions:
the first (shortest) candidate whose continuation also matches wins. -/
def firstTagMatch : List Nat → List Char → Option (List Char × List Char × List Char)
  | [], _ => none
  | j :: js, l =>
    match matchSecondTag (l.drop (j + 1)) with
    | some pr => some (l.take (j + 1), pr.1, pr.2)
    | none => firstTagMatch js l

/-- Matcher for `reScriptParse` (two anchored lazy bracket groups separated
by optional white space, then the rest of the line): returns the speaker
tag group, the style tag group, and the captured text. -/
def matchScriptParse (l : List Char) : Option (List Char × List Char × List Char) :=
  if l.getD 0 ' ' = '[' then firstTagMatch (tagEnds l) l else none

/-- The fixed emotion vocabulary of `EmotionTagsPattern`. -/
def emotionWords : List (List Char) :=
  [("解説").data, ("疑問").data, ("驚き").data, ("理解").data, ("落ち着き").data,
   ("納得").data, ("断定").data, ("呼びかけ").data, ("まとめ").data, ("通常").data,
   ("喜び").data, ("怒り").data, ("ノーマル").data, ("あまあま").data,
   ("ツンツン").data, ("セクシー").data, ("ヒソヒソ").data, ("ささやき").data]

/-- Does a bracketed emotion word start at the head of `l`?  If so, return
the number of runes it spans.  The words are pairwise non-overlapping
behind the closing bracket, so at most one alternative matches. -/
def emotionMatch (l : List Char) : Option Nat :=
  emotionWords.foldr
    (fun w acc => if l.take (w.length + 2) = '[' :: w ++ [']'] then some (w.length + 2) else acc)
    none

/-- One left-to-right pass of `reEmotionParse.ReplaceAllString(text, "")`:
at each position, if a bracketed emotion word starts there, delete it and
continue after it; otherwise keep the rune.  Every step consumes at least
one rune, so fuel `l.length` always suffices. -/
def stripEmotionsGo (fuel : Nat) (l : List Char) : List Char :=
  match fuel, l with
  | 0, l => l
  | _ + 1, [] => []
  | fuel + 1, c :: cs =>
    match emotionMatch (c :: cs) with
    | some k => stripEmotionsGo fuel ((c :: cs).drop k)
    | none => c :: stripEmotionsGo fuel cs

def stripEmotionTags (l : List Char) : List Char :=
  stripEmotionsGo l.length l

/-- `parser.Segment` (field names as in the Go struct). -/
structure Segment where
  SpeakerTag : List Char
  BaseSpeakerTag : List Char
  Text : List Char
deriving DecidableEq, Repr

/-- The mutable fields of the Go `textParser` struct. -/
structure ParserState where
  segments : List Segment
  currentTag : List Char
  currentText : List Char
  textBuffer : List Char
  fallbackTag : List Char
deriving DecidableEq, Repr

/-- The text cleanup of `addSegment`: strip the emotion tags, then trim. -/
def cleanText (text : List Char) : List Char :=
  trimSpace (stripEmotionTags text)

/-- `addSegment`: strip emotion tags and trim; drop the segment if the text
became empty, otherwise extract the base speaker tag (empty on a failed
match, which the Go code only logs) and append the segment. -/
def addSegment (st : ParserState) (tag text : List Char) : ParserState :=
  if cleanText text ≠ [] then
    { st with segments :=
        st.segments ++ [⟨tag, (matchBaseTag tag).getD [], cleanText text⟩] }
  else st

/-- `flushCurrentSegment`: emit the buffered text (when non-empty and a tag
is open) and always reset the text buffer. -/
def flushCurrentSegment (st : ParserState) : ParserState :=
  if st.currentText ≠ [] ∧ st.currentTag ≠ [] then
    { addSegment st st.currentTag st.currentText with currentText := [] }
  else { st with currentText := [] }

/-- The one-rune separator budget of `splitTextByPunctuation`. -/
def goSpace (n : Nat) : Nat := if 0 < n then 1 else 0

def isPunct (c : Char) : Bool :=
  c = '。' || c = '、' || c = '！' || c = '？'

/-- The scanning loop of `splitTextByPunctuation`: the last `i + 1` with a
punctuation rune at an index `i` that still fits the budget (the loop
breaks as soon as `i + 1` exceeds the remaining capacity). -/
def bestSplitIdx (maxCapacity : Nat) (text : List Char) : Option Nat :=
  (List.range (min maxCapacity text.length)).foldl
    (fun acc i => if isPunct (text.getD i ' ') then some (i + 1) else acc) none

/-- `splitTextByPunctuation`: if the text fits, take it whole; if no
capacity is left, defer it all; otherwise split after the rightmost
in-budget punctuation rune, or mechanically at the exact capacity. -/
def splitTextByPunctuation (currentRuneCount : Nat) (text : List Char) :
    List Char × List Char :=
  if currentRuneCount + goSpace currentRuneCount + text.length ≤ maxSegmentCharLength then
    (text, [])
  else
    if maxSegmentCharLength - currentRuneCount - goSpace currentRuneCount = 0 then ([], text)
    else
      match bestSplitIdx (maxSegmentCharLength - currentRuneCount - goSpace currentRuneCount)
          text with
      | some b => (text.take b, text.drop b)
      | none =>
        if maxSegmentCharLength - currentRuneCount - goSpace currentRuneCount <
            text.length then
          (text.take (maxSegmentCharLength - currentRuneCount - goSpace currentRuneCount),
           text.drop (maxSegmentCharLength - currentRuneCount - goSpace currentRuneCount))
        else (text, [])

/-- The in-loop append of `appendAndSplitText`: when the fitting part is
non-empty, write it into the current text, preceded by a separating blank
when text is already buffered. -/
def appendPart (st : ParserState) (part : List Char) : ParserState :=
  if part ≠ [] then
    { st with currentText :=
        st.currentText ++ (if st.currentText ≠ [] then ' ' :: part else part) }
  else st

/-- The loop of `appendAndSplitText`: split, append the fitting part
(space-joined), and if a remainder is left flush the segment and continue
with the remainder.  An iteration either ends, shortens the text, or (when
no capacity is left) flushes so that the next iteration has full capacity,
so fuel `2 * text.length + 2` always suffices. -/
def appendSplitLoop (fuel : Nat) (st : ParserState) (text : List Char) : ParserState :=
  match fuel with
  | 0 => st
  | fuel + 1 =>
    if (splitTextByPunctuation st.currentText.length text).2 = [] then
      appendPart st (splitTextByPunctuation st.currentText.length text).1
    else
      appendSplitLoop fuel
        (flushCurrentSegment
          (appendPart st (splitTextByPunctuation st.currentText.length text).1))
        (splitTextByPunctuation st.currentText.length text).2

def appendAndSplitText (st : ParserState) (text : List Char) : ParserState :=
  appendSplitLoop (2 * text.length + 2) st text

/-- `processTaggedLine`: any open segment is flushed first (tagged lines
never merge into it, even with an identical tag), then the tag is set and
the text appended. -/
def processTaggedLine (st : ParserState) (tag text : List Char) : ParserState :=
  let st' := if st.currentTag ≠ [] then flushCurrentSegment st else st
  appendAndSplitText { st' with currentTag := tag } text

/-- `processUntaggedLine`: append to the open segment, or hold the text in
the pending buffer when no tag has been seen yet. -/
def processUntaggedLine (st : ParserState) (text : List Char) : ParserState :=
  if st.currentTag ≠ [] then appendAndSplitText st text
  else { st with textBuffer := text }

/-- `processLine`: prepend (space-joined) any pending buffered text, clear
the buffer, then try the script regexp on the combined text. -/
def processLine (st : ParserState) (line : List Char) : ParserState :=
  if line = [] then st
  else
    let textToProcess := if st.textBuffer ≠ [] then st.textBuffer ++ ' ' :: line else line
    let st' := if st.textBuffer ≠ [] then { st with textBuffer := [] } else st
    match matchScriptParse textToProcess with
    | some g => processTaggedLine st' (g.1 ++ g.2.1) g.2.2
    | none => processUntaggedLine st' textToProcess

/-- `finishParsing`: flush the open segment; an unconsumed pending buffer
is attached to the last segment's tag, else to the fallback tag, else
dropped. -/
def finishParsing (st : ParserState) : ParserState :=
  if (flushCurrentSegment st).textBuffer ≠ [] then
    match (flushCurrentSegment st).segments.getLast? with
    | some lastSeg =>
      addSegment (flushCurrentSegment st) lastSeg.SpeakerTag
        (flushCurrentSegment st).textBuffer
    | none =>
      if (flushCurrentSegment st).fallbackTag ≠ [] then
        addSegment (flushCurrentSegment st) (flushCurrentSegment st).fallbackTag
          (flushCurrentSegment st).textBuffer
      else flushCurrentSegment st
  else flushCurrentSegment st

/-- The line loop of `Parse`: trim each line and skip blank ones. -/
def processLines (st : ParserState) (lines : List (List Char)) : ParserState :=
  lines.foldl
    (fun st line => if trimSpace line = [] then st else processLine st (trimSpace line)) st

def initState (fallbackTag : List Char) : ParserState :=
  ⟨[], [], [], [], fallbackTag⟩

/-- `Parse` of the `parser` package (on a fresh `textParser`, as built by
`NewParser`): split into lines, process them, finish, and return the
collected segments (the Go error result is always nil). -/
def textParse (scriptContent fallbackTag : List Char) : List Segment :=
  (finishParsing (processLines (initState fallbackTag) (splitLines scriptContent))).segments

/-! ## Claim C4 -/

/-- C4: on the script whose first line is the untagged `hello` and whose
second line is the tagged `[A][B] world`, `Parse` prepends the pending
buffer to the second line before running the anchored tag regexp, so the
combined line no longer starts with a bracket and the tag is never
recognised: the whole text (tag characters included) falls through to the
fallback-tag path of `finishParsing` instead of being merged into a
segment tagged `[A][B]` as the claim (and the parser's own log message)
states. -/
theorem c4_pending_buffer_swallows_tag :
    textParse ("hello\n[A][B] world").data ("[F]").data =
        [⟨("[F]").data, ("[F]").data, ("hello [A][B] world").data⟩] ∧
      ∀ seg ∈ textParse ("hello\n[A][B] world").data ("[F]").data,
        seg.SpeakerTag ≠ ("[A][B]").data := by
  have h : textParse ("hello\n[A][B] world").data ("[F]").data =
      [⟨("[F]").data, ("[F]").data, ("hello [A][B] world").data⟩] := by decide
  refine ⟨h, ?_⟩
  intro seg hseg
  rw [h, List.mem_singleton] at hseg
  subst hseg
  decide

/-! ## Claim C5 -/

set_option maxRecDepth 40000 in
/-- C5 (counterexample): a script consisting of one untagged 201-rune line
with a non-empty fallback tag is emitted by `finishParsing` as a single
segment of 201 runes, exceeding the 200-rune budget: the trailing-buffer
path enforces no budget. -/
theorem c5_counterexample :
    ((textParse (List.replicate 201 'あ') ("[F]").data).map fun s => s.Text.length) =
        [201] ∧
      ¬ 201 ≤ maxSegmentCharLength := by
  refine ⟨by decide, by decide⟩

/-! ## Claim C6 -/

/-- A fold that records `i + 1` at every hit returns `none` exactly when
there is no hit in the scanned range. -/
theorem foldl_lastHit_none {p : Nat → Bool} {n : Nat}
    (h : (List.range n).foldl (fun acc i => if p i then some (i + 1) else acc) none = none) :
    ∀ j, j < n → ¬ p j := by
  induction n with
  | zero => intro j hj; omega
  | succ n ih =>
    rw [List.range_succ, List.foldl_append] at h
    simp only [List.foldl_cons, List.foldl_nil] at h
    by_cases hp : p n
    · rw [if_pos hp] at h
      simp at h
    · rw [if_neg hp] at h
      intro j hj
      rcases Nat.lt_succ_iff_lt_or_eq.mp hj with h' | rfl
      · exact ih h j h'
      · exact hp

/-- A fold that records `i + 1` at every hit returns the position right
after the last hit in the scanned range. -/
theorem foldl_lastHit_some {p : Nat → Bool} {n b : Nat}
    (h : (List.range n).foldl (fun acc i => if p i then some (i + 1) else acc) none = some b) :
    ∃ j, b = j + 1 ∧ j < n ∧ p j ∧ ∀ k, j < k → k < n → ¬ p k := by
  induction n with
  | zero => simp [List.range_zero] at h
  | succ n ih =>
    rw [List.range_succ, List.foldl_append] at h
    simp only [List.foldl_cons, List.foldl_nil] at h
    by_cases hp : p n
    · rw [if_pos hp] at h
      injection h with h
      exact ⟨n, h.symm, by omega, hp, fun k hk1 hk2 => by omega⟩
    · rw [if_neg hp] at h
      obtain ⟨j, rfl, hj, hpj, hmax⟩ := ih h
      refine ⟨j, rfl, by omega, hpj, ?_⟩
      intro k hk1 hk2
      rcases Nat.lt_succ_iff_lt_or_eq.mp hk2 with h' | rfl
      · exact hmax k hk1 h'
      · exact hp

/-- C6: when appending `text` would exceed the budget and some terminal
punctuation rune lies in the still-fitting prefix, `splitTextByPunctuation`
splits immediately after the rightmost such in-budget rune: never at an
earlier mark, and never by mechanical cut. -/
theorem c6_rightmost_punctuation_split (currentRuneCount : Nat) (text : List Char)
    (hover : maxSegmentCharLength <
      currentRuneCount + goSpace currentRuneCount + text.length)
    (j0 : Nat)
    (hj0cap : j0 < maxSegmentCharLength - currentRuneCount - goSpace currentRuneCount)
    (hj0len : j0 < text.length)
    (hj0p : isPunct (text.getD j0 ' ') = true) :
    ∃ j, j < maxSegmentCharLength - currentRuneCount - goSpace currentRuneCount ∧
      j < text.length ∧ isPunct (text.getD j ' ') = true ∧
      (∀ k, k < maxSegmentCharLength - currentRuneCount - goSpace currentRuneCount →
        k < text.length → isPunct (text.getD k ' ') = true → k ≤ j) ∧
      splitTextByPunctuation currentRuneCount text =
        (text.take (j + 1), text.drop (j + 1)) := by
  unfold splitTextByPunctuation
  rw [if_neg (by omega)]
  rw [if_neg (by omega :
    ¬ maxSegmentCharLength - currentRuneCount - goSpace currentRuneCount = 0)]
  cases hbs : bestSplitIdx
      (maxSegmentCharLength - currentRuneCount - goSpace currentRuneCount) text with
  | none =>
    exfalso
    unfold bestSplitIdx at hbs
    exact foldl_lastHit_none hbs j0 (by omega) hj0p
  | some b =>
    unfold bestSplitIdx at hbs
    obtain ⟨j, rfl, hj, hpj, hmax⟩ := foldl_lastHit_some hbs
    refine ⟨j, by omega, by omega, hpj, ?_, rfl⟩
    intro k hk1 hk2 hkp
    by_contra hlt
    exact hmax k (by omega) (by omega) hkp

set_option maxRecDepth 40000 in
/-- Witness for `c6_rightmost_punctuation_split`: a 201-rune text with
punctuation at indices 100 and 150 splits right after index 150. -/
theorem c6_rightmost_punctuation_split_witness :
    ∃ j, j < maxSegmentCharLength - 0 - goSpace 0 ∧
      j < (List.replicate 100 'あ' ++ '、' :: (List.replicate 49 'あ' ++ '、' ::
        List.replicate 50 'あ')).length ∧
      isPunct ((List.replicate 100 'あ' ++ '、' :: (List.replicate 49 'あ' ++ '、' ::
        List.replicate 50 'あ')).getD j ' ') = true ∧
      (∀ k, k < maxSegmentCharLength - 0 - goSpace 0 →
        k < (List.replicate 100 'あ' ++ '、' :: (List.replicate 49 'あ' ++ '、' ::
          List.replicate 50 'あ')).length →
        isPunct ((List.replicate 100 'あ' ++ '、' :: (List.replicate 49 'あ' ++ '、' ::
          List.replicate 50 'あ')).getD k ' ') = true → k ≤ j) ∧
      splitTextByPunctuation 0 (List.replicate 100 'あ' ++ '、' ::
          (List.replicate 49 'あ' ++ '、' :: List.replicate 50 'あ')) =
        ((List.replicate 100 'あ' ++ '、' :: (List.replicate 49 'あ' ++ '、' ::
          List.replicate 50 'あ')).take (j + 1),
         (List.replicate 100 'あ' ++ '、' :: (List.replicate 49 'あ' ++ '、' ::
          List.replicate 50 'あ')).drop (j + 1)) :=
  c6_rightmost_punctuation_split 0
    (List.replicate 100 'あ' ++ '、' :: (List.replicate 49 'あ' ++ '、' ::
      List.replicate 50 'あ'))
    (by decide) 100 (by decide) (by decide) (by decide)

/-! ## Structural lemmas about the segmenter -/

theorem splitLines_no_newline {l : List Char} (h : '\n' ∉ l) :
    splitLines l = [l] := by
  induction l with
  | nil => rfl
  | cons c cs ih =>
    have hc : ¬ c = '\n' := fun he => h (he ▸ List.mem_cons_self c cs)
    have hcs : '\n' ∉ cs := fun hm => h (List.mem_cons_of_mem c hm)
    simp only [splitLines, if_neg hc, ih hcs]

theorem splitLines_append_newline {l1 l2 : List Char} (h1 : '\n' ∉ l1) :
    splitLines (l1 ++ '\n' :: l2) = l1 :: splitLines l2 := by
  induction l1 with
  | nil => simp [splitLines]
  | cons c cs ih =>
    have hc : ¬ c = '\n' := fun he => h1 (he ▸ List.mem_cons_self c cs)
    have hcs : '\n' ∉ cs := fun hm => h1 (List.mem_cons_of_mem c hm)
    simp only [List.cons_append, splitLines, List.append_eq, if_neg hc, ih hcs]

theorem tagEnds_mem {l : List Char} {j : Nat} (h : j ∈ tagEnds l) :
    2 ≤ j ∧ j < l.length := by
  unfold tagEnds at h
  rw [List.mem_filter, List.mem_range] at h
  refine ⟨?_, h.1⟩
  have := h.2
  simp only [Bool.and_eq_true, decide_eq_true_eq] at this
  exact this.1

theorem firstTagMatch_elim {js : List Nat} {l sp vv x : List Char}
    (h : firstTagMatch js l = some (sp, vv, x)) :
    ∃ j ∈ js, sp = l.take (j + 1) ∧ matchSecondTag (l.drop (j + 1)) = some (vv, x) := by
  induction js with
  | nil => simp [firstTagMatch] at h
  | cons j js ih =>
    unfold firstTagMatch at h
    cases hm : matchSecondTag (l.drop (j + 1)) with
    | some pr =>
      obtain ⟨v, t⟩ := pr
      rw [hm] at h
      simp only [Option.some.injEq, Prod.mk.injEq] at h
      obtain ⟨hsp, hvv, hx⟩ := h
      subst hvv
      subst hx
      exact ⟨j, List.mem_cons_self j js, hsp.symm, hm⟩
    | none =>
      rw [hm] at h
      obtain ⟨j', hj', hrest⟩ := ih h
      exact ⟨j', List.mem_cons_of_mem j hj', hrest⟩

theorem matchScriptParse_sp_ne_nil {l sp vv x : List Char}
    (h : matchScriptParse l = some (sp, vv, x)) : sp ≠ [] := by
  unfold matchScriptParse at h
  split_ifs at h with h0
  obtain ⟨j, hj, hsp, -⟩ := firstTagMatch_elim h
  obtain ⟨hj2, hjlen⟩ := tagEnds_mem hj
  subst hsp
  have hlen : (l.take (j + 1)).length = j + 1 := by
    rw [List.length_take]
    omega
  intro he
  rw [he] at hlen
  simp at hlen

theorem matchScriptParse_line_ne_nil {l sp vv x : List Char}
    (h : matchScriptParse l = some (sp, vv, x)) : l ≠ [] := by
  intro he
  subst he
  simp [matchScriptParse, List.getD] at h

/-- When the whole text fits the remaining budget, one iteration of the
append loop appends it (space-joined) and stops. -/
theorem appendAndSplitText_fits (st : ParserState) (text : List Char)
    (hfit : st.currentText.length + goSpace st.currentText.length + text.length ≤
      maxSegmentCharLength)
    (hne : text ≠ []) :
    appendAndSplitText st text =
      { st with currentText :=
          st.currentText ++ (if st.currentText ≠ [] then ' ' :: text else text) } := by
  have h2 : 2 * text.length + 2 = (2 * text.length + 1) + 1 := rfl
  unfold appendAndSplitText
  rw [h2]
  unfold appendSplitLoop
  have hsplit : splitTextByPunctuation st.currentText.length text = (text, []) := by
    unfold splitTextByPunctuation
    rw [if_pos hfit]
  rw [hsplit]
  unfold appendPart
  simp [hne]

/-- `processLine` on a non-blank line with an empty pending buffer and a
successful tag match reduces to `processTaggedLine`. -/
theorem processLine_tagged {st : ParserState} {line sp vv x : List Char}
    (hbuf : st.textBuffer = []) (hmatch : matchScriptParse line = some (sp, vv, x))
    (hline : line ≠ []) :
    processLine st line = processTaggedLine st (sp ++ vv) x := by
  unfold processLine
  rw [if_neg hline]
  simp [hbuf, hmatch]

/-- A tagged line arriving at a state with no open tag just installs its
tag and text (when the text fits the budget). -/
theorem processTaggedLine_fresh (segs : List Segment) (fb tag text : List Char)
    (hfit : text.length ≤ maxSegmentCharLength) (htext : text ≠ []) :
    processTaggedLine ⟨segs, [], [], [], fb⟩ tag text = ⟨segs, tag, text, [], fb⟩ := by
  unfold processTaggedLine
  rw [if_neg (by simp)]
  rw [appendAndSplitText_fits _ _ (by simpa [goSpace] using hfit) htext]
  simp

/-- A tagged line arriving at a state with an open segment first flushes
that segment — even when the tag is identical — then installs its own tag
and text. -/
theorem processTaggedLine_open (segs : List Segment) (g cur fb tag text : List Char)
    (hg : g ≠ []) (hcur : cur ≠ []) (hclean : cleanText cur ≠ [])
    (hfit : text.length ≤ maxSegmentCharLength) (htext : text ≠ []) :
    processTaggedLine ⟨segs, g, cur, [], fb⟩ tag text =
      ⟨segs ++ [⟨g, (matchBaseTag g).getD [], cleanText cur⟩], tag, text, [], fb⟩ := by
  unfold processTaggedLine
  rw [if_pos (show (⟨segs, g, cur, [], fb⟩ : ParserState).currentTag ≠ [] from hg)]
  unfold flushCurrentSegment
  rw [if_pos (⟨hcur, hg⟩ :
    (⟨segs, g, cur, [], fb⟩ : ParserState).currentText ≠ [] ∧
      (⟨segs, g, cur, [], fb⟩ : ParserState).currentTag ≠ [])]
  unfold addSegment
  rw [if_pos hclean]
  rw [appendAndSplitText_fits _ _ (by simpa [goSpace] using hfit) htext]
  simp

/-- Finishing with an open segment and an empty pending buffer emits just
that segment. -/
theorem finishParsing_open (segs : List Segment) (g cur fb : List Char)
    (hg : g ≠ []) (hcur : cur ≠ []) (hclean : cleanText cur ≠ []) :
    (finishParsing ⟨segs, g, cur, [], fb⟩).segments =
      segs ++ [⟨g, (matchBaseTag g).getD [], cleanText cur⟩] := by
  have hfb : (flushCurrentSegment (⟨segs, g, cur, [], fb⟩ : ParserState)).textBuffer = [] := by
    unfold flushCurrentSegment addSegment
    split_ifs <;> rfl
  unfold finishParsing
  rw [if_neg (by rw [hfb]; simp)]
  unfold flushCurrentSegment
  rw [if_pos (⟨hcur, hg⟩ :
    (⟨segs, g, cur, [], fb⟩ : ParserState).currentText ≠ [] ∧
      (⟨segs, g, cur, [], fb⟩ : ParserState).currentTag ≠ [])]
  unfold addSegment
  rw [if_pos hclean]

/-! ## Claim C7 -/

/-- C7: a two-line script whose lines carry byte-identical speaker+style
tags (both matched by the script regexp, with in-budget, non-vanishing
texts) yields exactly two segments, one per line, under that common tag:
the second tagged line is never folded into the still-open first segment
even though the tags are equal. -/
theorem c7_identical_tags_two_segments (l1 l2 sp vv x1 x2 fb : List Char)
    (h1 : matchScriptParse (trimSpace l1) = some (sp, vv, x1))
    (h2 : matchScriptParse (trimSpace l2) = some (sp, vv, x2))
    (hn1 : '\n' ∉ l1) (hn2 : '\n' ∉ l2)
    (hb1 : x1.length ≤ maxSegmentCharLength) (hb2 : x2.length ≤ maxSegmentCharLength)
    (hc1 : cleanText x1 ≠ []) (hc2 : cleanText x2 ≠ []) :
    textParse (l1 ++ '\n' :: l2) fb =
      [⟨sp ++ vv, (matchBaseTag (sp ++ vv)).getD [], cleanText x1⟩,
       ⟨sp ++ vv, (matchBaseTag (sp ++ vv)).getD [], cleanText x2⟩] := by
  have hx1 : x1 ≠ [] := fun he => hc1 (by rw [he]; rfl)
  have hx2 : x2 ≠ [] := fun he => hc2 (by rw [he]; rfl)
  have hsp := matchScriptParse_sp_ne_nil h1
  have htag : sp ++ vv ≠ [] := by
    intro he
    exact hsp (List.append_eq_nil.mp he).1
  have hl1 := matchScriptParse_line_ne_nil h1
  have hl2 := matchScriptParse_line_ne_nil h2
  unfold textParse
  rw [splitLines_append_newline hn1, splitLines_no_newline hn2]
  unfold processLines
  simp only [List.foldl_cons, List.foldl_nil]
  rw [if_neg (by simpa using hl2), if_neg (by simpa using hl1)]
  rw [processLine_tagged (by rfl) h1 hl1]
  rw [show initState fb = (⟨[], [], [], [], fb⟩ : ParserState) from rfl]
  rw [processTaggedLine_fresh [] fb (sp ++ vv) x1 hb1 hx1]
  rw [processLine_tagged (by rfl) h2 hl2]
  rw [processTaggedLine_open [] (sp ++ vv) x1 fb (sp ++ vv) x2 htag hx1 hc1 hb2 hx2]
  rw [finishParsing_open _ _ _ _ htag hx2 hc2]
  simp

/-- Witness for `c7_identical_tags_two_segments` on a concrete two-line
script with byte-identical tags. -/
theorem c7_identical_tags_two_segments_witness :
    textParse (("[A][B] one").data ++ '\n' :: ("[A][B] two").data) ("[F]").data =
      [⟨("[A]").data ++ ("[B]").data,
        (matchBaseTag (("[A]").data ++ ("[B]").data)).getD [], cleanText ("one").data⟩,
       ⟨("[A]").data ++ ("[B]").data,
        (matchBaseTag (("[A]").data ++ ("[B]").data)).getD [], cleanText ("two").data⟩] :=
  c7_identical_tags_two_segments ("[A][B] one").data ("[A][B] two").data
    ("[A]").data ("[B]").data ("one").data ("two").data ("[F]").data
    (by decide) (by decide) (by decide) (by decide) (by decide) (by decide)
    (by decide) (by decide)

/-! ## Claim C5 (amended): the budget invariant -/

/-- Every emitted segment respects the character budget. -/
def SegsBounded (segs : List Segment) : Prop :=
  ∀ seg ∈ segs, seg.Text.length ≤ maxSegmentCharLength

theorem stripEmotionsGo_length_le (fuel : Nat) (l : List Char) :
    (stripEmotionsGo fuel l).length ≤ l.length := by
  induction fuel generalizing l with
  | zero => simp [stripEmotionsGo]
  | succ fuel ih =>
    cases l with
    | nil => simp [stripEmotionsGo]
    | cons c cs =>
      unfold stripEmotionsGo
      cases emotionMatch (c :: cs) with
      | some k =>
        calc (stripEmotionsGo fuel ((c :: cs).drop k)).length
            ≤ ((c :: cs).drop k).length := ih _
          _ ≤ (c :: cs).length := by rw [List.length_drop]; omega
      | none =>
        simp only [List.length_cons]
        exact Nat.succ_le_succ (ih cs)

theorem trimSpace_length_le (l : List Char) : (trimSpace l).length ≤ l.length := by
  unfold trimSpace
  calc ((l.dropWhile isUnicodeSpace).reverse.dropWhile isUnicodeSpace).reverse.length
      = ((l.dropWhile isUnicodeSpace).reverse.dropWhile isUnicodeSpace).length := by
        rw [List.length_reverse]
    _ ≤ (l.dropWhile isUnicodeSpace).reverse.length := (List.dropWhile_sublist _).length_le
    _ = (l.dropWhile isUnicodeSpace).length := by rw [List.length_reverse]
    _ ≤ l.length := (List.dropWhile_sublist _).length_le

theorem cleanText_length_le (l : List Char) : (cleanText l).length ≤ l.length :=
  le_trans (trimSpace_length_le _) (stripEmotionsGo_length_le _ _)

theorem addSegment_spec (st : ParserState) (tag text : List Char) :
    ((addSegment st tag text).segments = st.segments ∨
      (addSegment st tag text).segments =
        st.segments ++ [⟨tag, (matchBaseTag tag).getD [], cleanText text⟩]) ∧
    (addSegment st tag text).currentTag = st.currentTag ∧
    (addSegment st tag text).currentText = st.currentText ∧
    (addSegment st tag text).textBuffer = st.textBuffer ∧
    (addSegment st tag text).fallbackTag = st.fallbackTag := by
  unfold addSegment
  split_ifs <;> simp

theorem addSegment_bounded {st : ParserState} {tag text : List Char}
    (hseg : SegsBounded st.segments) (ht : text.length ≤ maxSegmentCharLength) :
    SegsBounded (addSegment st tag text).segments := by
  rcases (addSegment_spec st tag text).1 with h | h <;> rw [h]
  · exact hseg
  · intro seg hmem
    rcases List.mem_append.mp hmem with hm | hm
    · exact hseg seg hm
    · rw [List.mem_singleton] at hm
      subst hm
      exact le_trans (cleanText_length_le text) ht

theorem flushCurrentSegment_spec (st : ParserState) :
    (flushCurrentSegment st).currentTag = st.currentTag ∧
    (flushCurrentSegment st).textBuffer = st.textBuffer ∧
    (flushCurrentSegment st).fallbackTag = st.fallbackTag ∧
    (flushCurrentSegment st).currentText = [] := by
  unfold flushCurrentSegment
  split_ifs with h
  · obtain ⟨-, h1, -, h2, h3⟩ := addSegment_spec st st.currentTag st.currentText
    exact ⟨h1, h2, h3, rfl⟩
  · simp

theorem flushCurrentSegment_bounded {st : ParserState}
    (hcur : st.currentText.length ≤ maxSegmentCharLength)
    (hseg : SegsBounded st.segments) :
    SegsBounded (flushCurrentSegment st).segments := by
  unfold flushCurrentSegment
  split_ifs with h
  · exact addSegment_bounded hseg hcur
  · exact hseg

/-- The part returned by `splitTextByPunctuation` is empty or fits the
budget together with the current text and its separator. -/
theorem splitTextByPunctuation_part_le (cur : Nat) (text : List Char) :
    (splitTextByPunctuation cur text).1 = [] ∨
    cur + goSpace cur + (splitTextByPunctuation cur text).1.length ≤
      maxSegmentCharLength := by
  unfold splitTextByPunctuation
  split_ifs with h1 h2 h3
  · right
    simpa using h1
  · left
    rfl
  · cases hbs : bestSplitIdx (maxSegmentCharLength - cur - goSpace cur) text with
    | some b =>
      right
      unfold bestSplitIdx at hbs
      obtain ⟨j, rfl, hj, -, -⟩ := foldl_lastHit_some hbs
      have hj1 : j < maxSegmentCharLength - cur - goSpace cur :=
        lt_of_lt_of_le hj (Nat.min_le_left _ _)
      simp only [List.length_take]
      have hmin : min (j + 1) text.length = j + 1 :=
        Nat.min_eq_left (lt_of_lt_of_le hj (Nat.min_le_right _ _))
      rw [hmin]
      omega
    | none =>
      right
      simp only [List.length_take]
      have hmin : min (maxSegmentCharLength - cur - goSpace cur) text.length =
          maxSegmentCharLength - cur - goSpace cur := Nat.min_eq_left (by omega)
      rw [hmin]
      omega
  · cases hbs : bestSplitIdx (maxSegmentCharLength - cur - goSpace cur) text with
    | some b =>
      right
      unfold bestSplitIdx at hbs
      obtain ⟨j, rfl, hj, -, -⟩ := foldl_lastHit_some hbs
      have hj1 : j < maxSegmentCharLength - cur - goSpace cur :=
        lt_of_lt_of_le hj (Nat.min_le_left _ _)
      simp only [List.length_take]
      have hmin : min (j + 1) text.length = j + 1 :=
        Nat.min_eq_left (lt_of_lt_of_le hj (Nat.min_le_right _ _))
      rw [hmin]
      omega
    | none =>
      exfalso
      omega

theorem appendPart_spec (st : ParserState) (part : List Char) :
    (appendPart st part).segments = st.segments ∧
    (appendPart st part).currentTag = st.currentTag ∧
    (appendPart st part).textBuffer = st.textBuffer ∧
    (appendPart st part).fallbackTag = st.fallbackTag := by
  unfold appendPart
  split_ifs <;> simp

theorem appendPart_bounded (st : ParserState) (part : List Char)
    (hcur : st.currentText.length ≤ maxSegmentCharLength)
    (hp : part = [] ∨
      st.currentText.length + goSpace st.currentText.length + part.length ≤
        maxSegmentCharLength) :
    (appendPart st part).currentText.length ≤ maxSegmentCharLength := by
  unfold appendPart
  split_ifs with h h2
  · rcases hp with rfl | hp
    · exact absurd rfl h
    · show (st.currentText ++ ' ' :: part).length ≤ maxSegmentCharLength
      have h0 : 0 < st.currentText.length := List.length_pos.mpr h2
      simp only [goSpace, if_pos h0] at hp
      simp only [List.length_append, List.length_cons]
      omega
  · rcases hp with rfl | hp
    · exact absurd rfl h
    · show (st.currentText ++ part).length ≤ maxSegmentCharLength
      have hct : st.currentText = [] := not_not.mp h2
      simp only [hct, List.length_nil, goSpace, if_neg (by omega : ¬ (0 : Nat) < 0),
        Nat.zero_add] at hp
      simp only [List.length_append, hct, List.length_nil, Nat.zero_add]
      exact hp
  · exact hcur

theorem appendSplitLoop_inv (fuel : Nat) (st : ParserState) (text : List Char)
    (hcur : st.currentText.length ≤ maxSegmentCharLength)
    (hseg : SegsBounded st.segments) :
    (appendSplitLoop fuel st text).currentText.length ≤ maxSegmentCharLength ∧
    SegsBounded (appendSplitLoop fuel st text).segments ∧
    (appendSplitLoop fuel st text).currentTag = st.currentTag ∧
    (appendSplitLoop fuel st text).textBuffer = st.textBuffer := by
  induction fuel generalizing st text with
  | zero => exact ⟨hcur, hseg, rfl, rfl⟩
  | succ fuel ih =>
    unfold appendSplitLoop
    have hb := appendPart_bounded st (splitTextByPunctuation st.currentText.length text).1
      hcur (splitTextByPunctuation_part_le st.currentText.length text)
    obtain ⟨p1, p2, p3, p4⟩ :=
      appendPart_spec st (splitTextByPunctuation st.currentText.length text).1
    split_ifs with hrem
    · exact ⟨hb, by rw [p1]; exact hseg, p2, p3⟩
    · obtain ⟨f1, f2, f3, f4⟩ := flushCurrentSegment_spec
        (appendPart st (splitTextByPunctuation st.currentText.length text).1)
      obtain ⟨g1, g2, g3, g4⟩ := ih
        (flushCurrentSegment
          (appendPart st (splitTextByPunctuation st.currentText.length text).1))
        (splitTextByPunctuation st.currentText.length text).2
        (by rw [f4]; simp)
        (flushCurrentSegment_bounded hb (by rw [p1]; exact hseg))
      exact ⟨g1, g2, by rw [g3, f1, p2], by rw [g4, f2, p3]⟩

/-- The running invariant once a tag has been seen: the current text is
within budget, all emitted segments are within budget, a tag is open, and
the pending buffer is empty. -/
def InvT (st : ParserState) : Prop :=
  st.currentText.length ≤ maxSegmentCharLength ∧ SegsBounded st.segments ∧
    st.currentTag ≠ [] ∧ st.textBuffer = []

theorem appendAndSplitText_invT {st : ParserState} {text : List Char}
    (h : InvT st) : InvT (appendAndSplitText st text) := by
  obtain ⟨h1, h2, h3, h4⟩ := h
  obtain ⟨g1, g2, g3, g4⟩ := appendSplitLoop_inv (2 * text.length + 2) st text h1 h2
  unfold appendAndSplitText
  exact ⟨g1, g2, by rw [g3]; exact h3, by rw [g4]; exact h4⟩

theorem processTaggedLine_invT {st : ParserState} {tag text : List Char}
    (h1 : st.currentText.length ≤ maxSegmentCharLength)
    (h2 : SegsBounded st.segments) (h4 : st.textBuffer = [])
    (htag : tag ≠ []) :
    InvT (processTaggedLine st tag text) := by
  unfold processTaggedLine
  split_ifs with hopen
  · obtain ⟨f1, f2, f3, f4⟩ := flushCurrentSegment_spec st
    apply appendAndSplitText_invT
    refine ⟨?_, ?_, htag, ?_⟩
    · show (flushCurrentSegment st).currentText.length ≤ maxSegmentCharLength
      rw [f4]
      simp
    · show SegsBounded (flushCurrentSegment st).segments
      exact flushCurrentSegment_bounded h1 h2
    · show (flushCurrentSegment st).textBuffer = []
      rw [f2]
      exact h4
  · exact appendAndSplitText_invT ⟨h1, h2, htag, h4⟩

theorem processUntaggedLine_invT {st : ParserState} {text : List Char}
    (h : InvT st) : InvT (processUntaggedLine st text) := by
  obtain ⟨h1, h2, h3, h4⟩ := h
  unfold processUntaggedLine
  rw [if_pos h3]
  exact appendAndSplitText_invT ⟨h1, h2, h3, h4⟩

/-- `processLine` on a non-blank line with an empty pending buffer and a
failed tag match reduces to `processUntaggedLine`. -/
theorem processLine_untagged {st : ParserState} {line : List Char}
    (hbuf : st.textBuffer = []) (hmatch : matchScriptParse line = none)
    (hline : line ≠ []) :
    processLine st line = processUntaggedLine st line := by
  unfold processLine
  rw [if_neg hline]
  simp [hbuf, hmatch]

theorem processLine_invT {st : ParserState} {line : List Char} (h : InvT st) :
    InvT (processLine st line) := by
  obtain ⟨h1, h2, h3, h4⟩ := h
  by_cases hl : line = []
  · subst hl
    unfold processLine
    rw [if_pos rfl]
    exact ⟨h1, h2, h3, h4⟩
  · cases hm : matchScriptParse line with
    | some g =>
      obtain ⟨sp, vv, x⟩ := g
      rw [processLine_tagged h4 hm hl]
      have hsp := matchScriptParse_sp_ne_nil hm
      exact processTaggedLine_invT h1 h2 h4 (fun he => hsp (List.append_eq_nil.mp he).1)
    | none =>
      rw [processLine_untagged h4 hm hl]
      exact processUntaggedLine_invT ⟨h1, h2, h3, h4⟩

theorem processLines_cons (st : ParserState) (l : List Char) (ls : List (List Char)) :
    processLines st (l :: ls) =
      processLines (if trimSpace l = [] then st else processLine st (trimSpace l)) ls := rfl

theorem processLines_invT (lines : List (List Char)) (st : ParserState) (h : InvT st) :
    InvT (processLines st lines) := by
  induction lines generalizing st with
  | nil => exact h
  | cons l ls ih =>
    rw [processLines_cons]
    by_cases hb : trimSpace l = []
    · rw [if_pos hb]
      exact ih st h
    · rw [if_neg hb]
      exact ih _ (processLine_invT h)

/-- Starting from a fresh parser, processing lines whose first non-blank
line is tagged either does nothing (all lines blank) or establishes the
running invariant. -/
theorem processLines_from_init (lines : List (List Char)) (fb : List Char)
    (hfirst : ∀ l0 ls,
      ((lines.map trimSpace).filter (fun l => !l.isEmpty)) = l0 :: ls →
      (matchScriptParse l0).isSome = true) :
    processLines (initState fb) lines = initState fb ∨
      InvT (processLines (initState fb) lines) := by
  induction lines with
  | nil => exact Or.inl rfl
  | cons l ls ih =>
    rw [processLines_cons]
    by_cases hb : trimSpace l = []
    · rw [if_pos hb]
      apply ih
      intro l0 ls0 hf
      apply hfirst l0 ls0
      have hdrop : ((l :: ls).map trimSpace).filter (fun x => !x.isEmpty) =
          (ls.map trimSpace).filter (fun x => !x.isEmpty) := by
        simp only [List.map_cons, List.filter_cons]
        rw [show (!(trimSpace l).isEmpty) = false by
          rw [Bool.not_eq_false', List.isEmpty_iff]; exact hb]
        simp
      rw [hdrop]
      exact hf
    · rw [if_neg hb]
      right
      have hfmatch : (matchScriptParse (trimSpace l)).isSome = true := by
        apply hfirst (trimSpace l) ((ls.map trimSpace).filter (fun x => !x.isEmpty))
        simp only [List.map_cons, List.filter_cons]
        rw [show (!(trimSpace l).isEmpty) = true by
          rw [Bool.not_eq_true', List.isEmpty_eq_false]; exact hb]
        simp
      obtain ⟨g, hm⟩ := Option.isSome_iff_exists.mp hfmatch
      obtain ⟨sp, vv, x⟩ := g
      apply processLines_invT
      rw [processLine_tagged (by rfl) hm hb]
      have hsp := matchScriptParse_sp_ne_nil hm
      exact processTaggedLine_invT (by simp [initState])
        (fun seg hmem => absurd hmem (by simp [initState]))
        (by rfl) (fun he => hsp (List.append_eq_nil.mp he).1)

theorem finishParsing_bounded {st : ParserState}
    (hbuf : st.textBuffer = [])
    (hcur : st.currentText.length ≤ maxSegmentCharLength)
    (hseg : SegsBounded st.segments) :
    SegsBounded (finishParsing st).segments := by
  have hfb : (flushCurrentSegment st).textBuffer = [] :=
    ((flushCurrentSegment_spec st).2.1).trans hbuf
  unfold finishParsing
  rw [if_neg (by rw [hfb]; simp)]
  exact flushCurrentSegment_bounded hcur hseg

/-- C5 (amended): for every script whose first non-blank line is tagged
(and any fallback tag), every segment emitted by `Parse` stays within the
`MaxSegmentCharLength` budget.  (The original claim fails only on the
trailing-pending-buffer path of `finishParsing`, reachable just when the
script has untagged text before any tag.) -/
theorem c5_budget_first_line_tagged (script fb : List Char)
    (hfirst : ∀ l0 ls,
      (((splitLines script).map trimSpace).filter (fun l => !l.isEmpty)) = l0 :: ls →
      (matchScriptParse l0).isSome = true) :
    ∀ seg ∈ textParse script fb, seg.Text.length ≤ maxSegmentCharLength := by
  unfold textParse
  rcases processLines_from_init (splitLines script) fb hfirst with h | h
  · rw [h]
    intro seg hmem
    have hnil : (finishParsing (initState fb)).segments = [] := rfl
    rw [hnil] at hmem
    simp at hmem
  · obtain ⟨h1, h2, h3, h4⟩ := h
    exact finishParsing_bounded h4 h1 h2

/-- Witness for `c5_budget_first_line_tagged` on a concrete tagged
one-line script: its single emitted segment is within budget. -/
theorem c5_budget_first_line_tagged_witness :
    textParse ("[A][B] hi").data ("[F]").data =
        [⟨("[A][B]").data, ("[A]").data, ("hi").data⟩] ∧
      (⟨("[A][B]").data, ("[A]").data, ("hi").data⟩ : Segment).Text.length ≤
        maxSegmentCharLength := by
  have h : textParse ("[A][B] hi").data ("[F]").data =
      [⟨("[A][B]").data, ("[A]").data, ("hi").data⟩] := by decide
  refine ⟨h, ?_⟩
  apply c5_budget_first_line_tagged ("[A][B] hi").data ("[F]").data
  · intro l0 ls hf
    have he : (((splitLines ("[A][B] hi").data).map trimSpace).filter
        (fun l => !l.isEmpty)) = [("[A][B] hi").data] := by decide
    rw [he] at hf
    injection hf with h1 h2
    subst h1
    decide
  · rw [h]
    exact List.mem_singleton_self _

/-! ## The synthesis orchestrator (`engine.go`)

The engine is embedded as a pure pipeline: the concurrent fan-out of
`runSynthesisBatch` writes its results into a position-indexed array and
its error set does not depend on completion order, so the batch is
modelled by a sequential walk in segment order.  Backend calls are counted
and the I/O tail (`combineWavData` and `os.WriteFile`) is reflected in the
returned trace. -/

/-- The `DataFinder` interface: the two catalog lookups (`map` lookups in
`SpeakerData`, returning value-plus-ok). -/
structure DataFinder where
  GetStyleID : List Char → Option Int
  GetDefaultTag : List Char → Option (List Char)

/-- The engine's `styleIDCache` (`map[string]int`) as an association list;
lookup finds the most recent insertion, insertion shadows. -/
abbrev Cache := List (List Char × Int)

def cacheLookup (c : Cache) (tag : List Char) : Option Int :=
  match c with
  | [] => none
  | (k, v) :: rest => if k = tag then some v else cacheLookup rest tag

def cacheInsert (c : Cache) (tag : List Char) (id : Int) : Cache :=
  (tag, id) :: c

/-- The two error messages `getStyleID` can produce (tag-extraction
failure when the base tag is empty, and no style id anywhere). -/
inductive ResolveError where
  | tagExtract (tag : List Char) (index : Nat)
  | noStyleID (tag : List Char) (index : Nat)
deriving DecidableEq, Repr

/-- Result of one `getStyleID` call: the Go return value, the cache state
after the call, and the number of catalog consultations
(`data.GetStyleID` / `data.GetDefaultTag`) the call performed. -/
structure ResolveOut where
  result : Except ResolveError Int
  cache : Cache
  catalogCalls : Nat
deriving Repr

/-- `getStyleID`: cache hit; else exact catalog match (cached); else, with
a non-empty base tag, the default-style fallback, whose resolved id is
cached under the original tag. -/
def getStyleID (d : DataFinder) (cache : Cache) (tag baseSpeakerTag : List Char)
    (index : Nat) : ResolveOut :=
  match cacheLookup cache tag with
  | some id => ⟨.ok id, cache, 0⟩
  | none =>
    match d.GetStyleID tag with
    | some styleID => ⟨.ok styleID, cacheInsert cache tag styleID, 1⟩
    | none =>
      if baseSpeakerTag = [] then ⟨.error (.tagExtract tag index), cache, 1⟩
      else
        match d.GetDefaultTag baseSpeakerTag with
        | some fallbackKey =>
          match d.GetStyleID fallbackKey with
          | some styleID => ⟨.ok styleID, cacheInsert cache tag styleID, 3⟩
          | none => ⟨.error (.noStyleID tag index), cache, 3⟩
        | none => ⟨.error (.noStyleID tag index), cache, 2⟩

/-- `engineSegment`: a parser segment plus the precomputed style id and
resolution error. -/
structure EngineSegment where
  seg : Segment
  StyleID : Int
  Err : Option ResolveError
deriving DecidableEq, Repr

/-- The precomputation loop of `prepareSegments`: resolve every segment's
style id through the shared cache, collecting errors without stopping. -/
def resolveSegments (d : DataFinder) (cache : Cache) (segs : List Segment) (i : Nat) :
    List EngineSegment × List ResolveError × Cache :=
  match segs with
  | [] => ([], [], cache)
  | s :: rest =>
    match (getStyleID d cache s.SpeakerTag s.BaseSpeakerTag i).result with
    | .ok id =>
      (⟨s, id, none⟩ ::
          (resolveSegments d (getStyleID d cache s.SpeakerTag s.BaseSpeakerTag i).cache
            rest (i + 1)).1,
        (resolveSegments d (getStyleID d cache s.SpeakerTag s.BaseSpeakerTag i).cache
          rest (i + 1)).2)
    | .error e =>
      (⟨s, 0, some e⟩ ::
          (resolveSegments d (getStyleID d cache s.SpeakerTag s.BaseSpeakerTag i).cache
            rest (i + 1)).1,
        e :: (resolveSegments d (getStyleID d cache s.SpeakerTag s.BaseSpeakerTag i).cache
          rest (i + 1)).2.1,
        (resolveSegments d (getStyleID d cache s.SpeakerTag s.BaseSpeakerTag i).cache
          rest (i + 1)).2.2)

/-- The `AudioQueryClient` interface of the backend. -/
structure AudioQueryClient where
  RunAudioQuery : List Char → Int → Except String (List Nat)
  RunSynthesis : List Nat → Int → Except String (List Nat)

/-- The per-segment failure messages aggregated into `ErrSynthesisBatch`. -/
inductive SynthError where
  | resolve (e : ResolveError)
  | audioQueryFailed (index : Nat) (msg : String)
  | synthesisFailed (index : Nat) (msg : String)
deriving DecidableEq, Repr

/-- `processSegment`: two backend round-trips; returns the result and the
number of backend calls issued (for the trace). -/
def processSegment (client : AudioQueryClient) (seg : EngineSegment) (index : Nat) :
    Except SynthError (List Nat) × Nat :=
  match seg.Err with
  | some e => (.error (.resolve e), 0)
  | none =>
    match client.RunAudioQuery seg.seg.Text seg.StyleID with
    | .error m => (.error (.audioQueryFailed index m), 1)
    | .ok queryBody =>
      match client.RunSynthesis queryBody seg.StyleID with
      | .error m => (.error (.synthesisFailed index m), 2)
      | .ok wavData => (.ok wavData, 2)

/-- The dispatch-and-join of `runSynthesisBatch`, in segment order:
segments with empty text or a resolution error are skipped; results land
at their segment's position; failures are collected.  Returns the
position-indexed result list, the runtime errors, and the number of
backend calls issued. -/
def runBatchLoop (client : AudioQueryClient) (segs : List EngineSegment) (i : Nat) :
    List (Option (List Nat)) × List SynthError × Nat :=
  match segs with
  | [] => ([], [], 0)
  | s :: rest =>
    if s.seg.Text = [] ∨ s.Err ≠ none then
      (none :: (runBatchLoop client rest (i + 1)).1, (runBatchLoop client rest (i + 1)).2)
    else
      match processSegment client s i with
      | (.ok w, c) =>
        (some w :: (runBatchLoop client rest (i + 1)).1,
          (runBatchLoop client rest (i + 1)).2.1,
          c + (runBatchLoop client rest (i + 1)).2.2)
      | (.error e, c) =>
        (none :: (runBatchLoop client rest (i + 1)).1,
          e :: (runBatchLoop client rest (i + 1)).2.1,
          c + (runBatchLoop client rest (i + 1)).2.2)

/-- The outcomes `Execute` can produce, with the file write reflected as
data. -/
inductive ExecResult where
  | parseNoSegments
  | batchError (totalErrors : Nat) (details : List SynthError)
  | noValidSegments
  | combineFailed (e : WavError)
  | wroteFile (bytes : List Nat)
deriving DecidableEq, Repr

/-- The observable trace of one `Execute` run: its result, how many
backend calls were issued, and whether `combineWavData` was reached. -/
structure ExecTrace where
  result : ExecResult
  backendCalls : Nat
  combineCalled : Bool
deriving DecidableEq, Repr

/-- `prepareSegments`: parse, fail on an empty segment list, resolve all
style ids, and abort with the aggregated batch error when every segment
failed resolution. -/
def prepareSegments (d : DataFinder) (scriptContent fallbackTag : List Char) :
    Except ExecResult (List EngineSegment × List ResolveError) :=
  if textParse scriptContent fallbackTag = [] then .error .parseNoSegments
  else
    if (resolveSegments d [] (textParse scriptContent fallbackTag) 0).2.1.length =
        (resolveSegments d [] (textParse scriptContent fallbackTag) 0).1.length then
      .error (.batchError
        (resolveSegments d [] (textParse scriptContent fallbackTag) 0).2.1.length
        ((resolveSegments d [] (textParse scriptContent fallbackTag) 0).2.1.map
          SynthError.resolve))
    else
      .ok ((resolveSegments d [] (textParse scriptContent fallbackTag) 0).1,
        (resolveSegments d [] (textParse scriptContent fallbackTag) 0).2.1)

/-- `finalizeOutput`: if any error was collected, return the aggregated
batch error before combining; otherwise filter the produced payloads,
combine them and write the file.  The Boolean records whether
`combineWavData` was reached. -/
def finalizeOutput (orderedAudioDataList : List (Option (List Nat)))
    (preCalcErrors : List ResolveError) (runtimeErrors : List SynthError) :
    ExecResult × Bool :=
  if preCalcErrors.map SynthError.resolve ++ runtimeErrors ≠ [] then
    (.batchError (preCalcErrors.map SynthError.resolve ++ runtimeErrors).length
      (preCalcErrors.map SynthError.resolve ++ runtimeErrors), false)
  else
    if orderedAudioDataList.filterMap id = [] then (.noValidSegments, false)
    else
      match combineWavData (orderedAudioDataList.filterMap id) with
      | .error e => (.combineFailed e, true)
      | .ok bytes => (.wroteFile bytes, true)

/-- `Execute`: prepare, dispatch, finalize.  The output path only matters
for the actual file write, which the trace reflects as `wroteFile`. -/
def execute (d : DataFinder) (client : AudioQueryClient)
    (scriptContent _outputWavFile fallbackTag : List Char) : ExecTrace :=
  match prepareSegments d scriptContent fallbackTag with
  | .error r => ⟨r, 0, false⟩
  | .ok pr =>
    ⟨(finalizeOutput (runBatchLoop client pr.1 0).1 pr.2
        (runBatchLoop client pr.1 0).2.1).1,
      (runBatchLoop client pr.1 0).2.2,
      (finalizeOutput (runBatchLoop client pr.1 0).1 pr.2
        (runBatchLoop client pr.1 0).2.1).2⟩

theorem resolveSegments_length (d : DataFinder) (cache : Cache) (segs : List Segment)
    (i : Nat) : (resolveSegments d cache segs i).1.length = segs.length := by
  induction segs generalizing cache i with
  | nil => rfl
  | cons s rest ih =>
    unfold resolveSegments
    cases (getStyleID d cache s.SpeakerTag s.BaseSpeakerTag i).result with
    | ok id => simp [ih]
    | error e => simp [ih]

/-! ## Claim C2 -/

/-- C2: when voice resolution fails for every parsed segment of a
non-empty script, `Execute` aborts inside `prepareSegments` with an
aggregated batch error whose detail count equals the number of segments,
and no backend call (`RunAudioQuery` or `RunSynthesis`) is ever issued. -/
theorem c2_all_resolution_failures_abort (d : DataFinder) (client : AudioQueryClient)
    (script outFile fb : List Char)
    (hne : ¬ textParse script fb = [])
    (hall : (resolveSegments d [] (textParse script fb) 0).2.1.length =
      (resolveSegments d [] (textParse script fb) 0).1.length) :
    execute d client script outFile fb =
      ⟨.batchError (textParse script fb).length
        ((resolveSegments d [] (textParse script fb) 0).2.1.map SynthError.resolve),
        0, false⟩ := by
  unfold execute prepareSegments
  rw [if_neg hne, if_pos hall, hall, resolveSegments_length]

/-- The catalog and backend used by the engine witnesses: only the tag
`[A][B]` resolves, no default tags, and the backend always succeeds. -/
def witnessFinder : DataFinder :=
  ⟨fun t => if t = ("[A][B]").data then some 1 else none, fun _ => none⟩

def witnessClient : AudioQueryClient :=
  ⟨fun _ _ => .ok [1], fun _ _ => .ok c3Payload⟩

/-- Witness for `c2_all_resolution_failures_abort`: a one-line script
whose only segment fails resolution. -/
theorem c2_all_resolution_failures_abort_witness :
    execute witnessFinder witnessClient ("[C][D] yo").data ("out.wav").data ("[F]").data =
      ⟨.batchError (textParse ("[C][D] yo").data ("[F]").data).length
        ((resolveSegments witnessFinder []
          (textParse ("[C][D] yo").data ("[F]").data) 0).2.1.map SynthError.resolve),
        0, false⟩ :=
  c2_all_resolution_failures_abort witnessFinder witnessClient
    ("[C][D] yo").data ("out.wav").data ("[F]").data (by decide) (by decide)

/-! ## Claim C1 -/

/-- C1: whenever at least one segment fails (resolution or dispatch) while
not every segment fails resolution, `Execute` returns the single
aggregated batch error enumerating every individual failure (the
resolution failures followed by the dispatch failures), `combineWavData`
is never reached, and no output file is written. -/
theorem c1_all_or_nothing (d : DataFinder) (client : AudioQueryClient)
    (script outFile fb : List Char)
    (hne : ¬ textParse script fb = [])
    (hnotall : ¬ (resolveSegments d [] (textParse script fb) 0).2.1.length =
      (resolveSegments d [] (textParse script fb) 0).1.length)
    (hfail : (resolveSegments d [] (textParse script fb) 0).2.1 ≠ [] ∨
      (runBatchLoop client (resolveSegments d [] (textParse script fb) 0).1 0).2.1 ≠ []) :
    execute d client script outFile fb =
      ⟨.batchError
        ((resolveSegments d [] (textParse script fb) 0).2.1.map SynthError.resolve ++
          (runBatchLoop client (resolveSegments d [] (textParse script fb) 0).1 0).2.1).length
        ((resolveSegments d [] (textParse script fb) 0).2.1.map SynthError.resolve ++
          (runBatchLoop client (resolveSegments d [] (textParse script fb) 0).1 0).2.1),
        (runBatchLoop client (resolveSegments d [] (textParse script fb) 0).1 0).2.2,
        false⟩ := by
  have hne2 : (resolveSegments d [] (textParse script fb) 0).2.1.map SynthError.resolve ++
      (runBatchLoop client (resolveSegments d [] (textParse script fb) 0).1 0).2.1 ≠ [] := by
    rcases hfail with h | h
    · intro he
      exact h (List.map_eq_nil_iff.mp (List.append_eq_nil.mp he).1)
    · intro he
      exact h (List.append_eq_nil.mp he).2
  simp only [execute, prepareSegments, finalizeOutput, if_neg hne, if_neg hnotall,
    if_pos hne2]

/-- Witness for `c1_all_or_nothing`: a two-line script where one segment
resolves and is synthesized while the other fails resolution; the run
still returns the aggregated error and writes nothing. -/
theorem c1_all_or_nothing_witness :
    execute witnessFinder witnessClient ("[A][B] hi\n[C][D] yo").data
        ("out.wav").data ("[F]").data =
      ⟨.batchError
        ((resolveSegments witnessFinder []
            (textParse ("[A][B] hi\n[C][D] yo").data ("[F]").data) 0).2.1.map
              SynthError.resolve ++
          (runBatchLoop witnessClient (resolveSegments witnessFinder []
            (textParse ("[A][B] hi\n[C][D] yo").data ("[F]").data) 0).1 0).2.1).length
        ((resolveSegments witnessFinder []
            (textParse ("[A][B] hi\n[C][D] yo").data ("[F]").data) 0).2.1.map
              SynthError.resolve ++
          (runBatchLoop witnessClient (resolveSegments witnessFinder []
            (textParse ("[A][B] hi\n[C][D] yo").data ("[F]").data) 0).1 0).2.1),
        (runBatchLoop witnessClient (resolveSegments witnessFinder []
          (textParse ("[A][B] hi\n[C][D] yo").data ("[F]").data) 0).1 0).2.2,
        false⟩ :=
  c1_all_or_nothing witnessFinder witnessClient ("[A][B] hi\n[C][D] yo").data
    ("out.wav").data ("[F]").data (by decide) (by decide) (Or.inl (by decide))

/-! ## Claim C9 -/

/-- C9: when `getStyleID` resolves a tag through the default-style
fallback of its base tag, the resolved id is cached under the original
combined tag; every later call with that tag answers from the cache with
the same id, leaves the cache unchanged, and performs no catalog or
fallback lookup at all. -/
theorem c9_fallback_caches_original_tag (d : DataFinder) (cache : Cache)
    (tag baseTag fallbackKey : List Char) (id : Int) (i : Nat)
    (hc : cacheLookup cache tag = none)
    (hs : d.GetStyleID tag = none)
    (hb : ¬ baseTag = [])
    (hd : d.GetDefaultTag baseTag = some fallbackKey)
    (hf : d.GetStyleID fallbackKey = some id) :
    (getStyleID d cache tag baseTag i).result = .ok id ∧
    cacheLookup (getStyleID d cache tag baseTag i).cache tag = some id ∧
    ∀ baseTag2 j,
      (getStyleID d (getStyleID d cache tag baseTag i).cache tag baseTag2 j).result =
        .ok id ∧
      (getStyleID d (getStyleID d cache tag baseTag i).cache tag baseTag2 j).cache =
        (getStyleID d cache tag baseTag i).cache ∧
      (getStyleID d (getStyleID d cache tag baseTag i).cache tag baseTag2 j).catalogCalls =
        0 := by
  have h1 : getStyleID d cache tag baseTag i = ⟨.ok id, cacheInsert cache tag id, 3⟩ := by
    simp only [getStyleID, hc, hs, if_neg hb, hd, hf]
  have h2 : cacheLookup (cacheInsert cache tag id) tag = some id := by
    unfold cacheInsert cacheLookup
    rw [if_pos rfl]
  rw [h1]
  refine ⟨rfl, h2, ?_⟩
  intro baseTag2 j
  have h3 : getStyleID d (cacheInsert cache tag id) tag baseTag2 j =
      ⟨.ok id, cacheInsert cache tag id, 0⟩ := by
    simp only [getStyleID, h2]
  rw [h3]
  exact ⟨rfl, rfl, rfl⟩

/-- The catalog used by the C9 witness: `[Z][X]` is the only style id and
`[Z]` defaults to it. -/
def fallbackFinder : DataFinder :=
  ⟨fun t => if t = ("[Z][X]").data then some 3 else none,
   fun t => if t = ("[Z]").data then some (("[Z][X]").data) else none⟩

/-- Witness for `c9_fallback_caches_original_tag`: the unknown style tag
`[Z][Y]` resolves to 3 via the default of `[Z]` and is cached under
`[Z][Y]`. -/
theorem c9_fallback_caches_original_tag_witness :
    (getStyleID fallbackFinder [] ("[Z][Y]").data ("[Z]").data 0).result = .ok 3 ∧
    cacheLookup (getStyleID fallbackFinder [] ("[Z][Y]").data ("[Z]").data 0).cache
      ("[Z][Y]").data = some 3 ∧
    ∀ baseTag2 j,
      (getStyleID fallbackFinder
        (getStyleID fallbackFinder [] ("[Z][Y]").data ("[Z]").data 0).cache
        ("[Z][Y]").data baseTag2 j).result = .ok 3 ∧
      (getStyleID fallbackFinder
        (getStyleID fallbackFinder [] ("[Z][Y]").data ("[Z]").data 0).cache
        ("[Z][Y]").data baseTag2 j).cache =
        (getStyleID fallbackFinder [] ("[Z][Y]").data ("[Z]").data 0).cache ∧
      (getStyleID fallbackFinder
        (getStyleID fallbackFinder [] ("[Z][Y]").data ("[Z]").data 0).cache
        ("[Z][Y]").data baseTag2 j).catalogCalls = 0 :=
  c9_fallback_caches_original_tag fallbackFinder [] ("[Z][Y]").data ("[Z]").data
    (("[Z][X]").data) 3 0 (by decide) (by decide) (by decide) (by decide) (by decide)

end Voicevox
